import Mathlib

/-!
Verification of the Parent-Onboarding-AI repository against its
natural-language specification.

The repository contains two executable TypeScript applications (a booking
UI with a matching engine, and a small set of web utilities including a
rate limiter) plus documentation, SQL schemas and Terraform wiring for an
event-ingestion and delivery core whose backend implementation is not in
the repository.  Components that exist as code are embedded here from the
source; components that exist only as declarations are modelled from the
specification and marked as such in their doc comments.
-/

/-! ## Rate limiter (`lib/rate-limiter.ts`)

The `RateLimiter` class keeps, per key, the list of timestamps of admitted
requests.  `isAllowed(key)` prunes timestamps older than the window, denies
when at least `maxRequests` remain, and otherwise records `Date.now()` and
allows.  Timestamps are embedded as `Nat`; the JS comparison
`time > now - windowMs` (computed over integers, where `now - windowMs` may
be negative) is rendered as `now < time + windowMs`, which is equivalent
over the integers and total over `Nat`. -/

namespace RateLimiter

structure RateLimitConfig where
  maxRequests : Nat
  windowMs : Nat

/-- The `requests` map of the class: every key starts at the empty list
(`this.requests.get(key) || []`). -/
def RLState : Type := String → List Nat

/-- A freshly constructed limiter has no recorded requests. -/
def emptyState : RLState := fun _ => []

/-- `this.requests.set(key, l)`. -/
def updateKey (s : RLState) (key : String) (l : List Nat) : RLState :=
  fun k => if k = key then l else s k

lemma updateKey_same (s : RLState) (key : String) (l : List Nat) :
    updateKey s key l key = l := if_pos rfl

lemma updateKey_ne (s : RLState) (key : String) (l : List Nat) (k : String)
    (h : k ≠ key) : updateKey s key l k = s k := if_neg h

/-- `RateLimiter.isAllowed` from `lib/rate-limiter.ts` (lines 16–32):
prune entries with `time > now - windowMs`, deny if `maxRequests` or more
remain, otherwise record `now` and allow.  Returns the result together
with the updated `requests` map. -/
def isAllowed (cfg : RateLimitConfig) (key : String) (now : Nat) (s : RLState) :
    Bool × RLState :=
  let requestTimes := (s key).filter (fun time => decide (now < time + cfg.windowMs))
  if cfg.maxRequests ≤ requestTimes.length then
    (false, s)
  else
    (true, updateKey s key (requestTimes ++ [now]))

/-- `RateLimiter.reset` from `lib/rate-limiter.ts` (lines 34–36). -/
def reset (key : String) (s : RLState) : RLState := updateKey s key []

/-- Run a sequence of `isAllowed` calls for one key at the given call
times, collecting the allow/deny results. -/
def runChecks (cfg : RateLimitConfig) (key : String) :
    List Nat → RLState → List Bool × RLState
  | [], s => ([], s)
  | t :: rest, s =>
    let r := isAllowed cfg key t s
    let r2 := runChecks cfg key rest r.2
    (r.1 :: r2.1, r2.2)

/-- An interleaved sequence of `isAllowed` and `reset` calls. -/
inductive RLOp where
  | check (key : String) (now : Nat)
  | reset (key : String)

/-- Run a sequence of limiter operations, collecting the results of the
`check` calls. -/
def runOps (cfg : RateLimitConfig) : List RLOp → RLState → List Bool × RLState
  | [], s => ([], s)
  | RLOp.check k t :: rest, s =>
    let r := isAllowed cfg k t s
    let r2 := runOps cfg rest r.2
    (r.1 :: r2.1, r2.2)
  | RLOp.reset k :: rest, s => runOps cfg rest (reset k s)

/-- The call times of the `check` operations are non-decreasing and start
no earlier than `lb` (true of `Date.now()` along any real execution). -/
def timesLB : Nat → List RLOp → Bool
  | _, [] => true
  | lb, RLOp.check _ t :: rest => decide (lb ≤ t) && timesLB t rest
  | lb, RLOp.reset _ :: rest => timesLB lb rest

/-- All recorded timestamps are at most `b`. -/
def Bounded (s : RLState) (b : Nat) : Prop := ∀ k, ∀ u ∈ s k, u ≤ b

/-- In every half-open window `(t, t + windowMs]`, at most `maxRequests`
timestamps are recorded for each key. -/
def Capped (cfg : RateLimitConfig) (s : RLState) : Prop :=
  ∀ k t,
    ((s k).filter (fun u => decide (t < u) && decide (u ≤ t + cfg.windowMs))).length
      ≤ cfg.maxRequests

lemma runChecks_window (cfg : RateLimitConfig) (key : String) (lo : Nat) :
    ∀ (ts : List Nat) (s : RLState),
      (∀ u ∈ s key, lo ≤ u ∧ u < lo + cfg.windowMs) →
      (∀ t ∈ ts, lo ≤ t ∧ t < lo + cfg.windowMs) →
      (runChecks cfg key ts s).1 =
        (List.range ts.length).map
          (fun i => decide ((s key).length + i < cfg.maxRequests))
  | [], s, _, _ => by simp [runChecks]
  | t :: rest, s, hs, hts => by
    have ht := hts t (List.mem_cons_self t rest)
    have hfilter :
        (s key).filter (fun time => decide (t < time + cfg.windowMs)) = s key := by
      apply List.filter_eq_self.mpr
      intro u hu
      have hu' := hs u hu
      exact decide_eq_true (by omega)
    simp only [runChecks, isAllowed, hfilter]
    by_cases hc : cfg.maxRequests ≤ (s key).length
    · rw [if_pos hc]
      simp only [List.length_cons, List.range_succ_eq_map, List.map_cons, List.map_map]
      refine List.cons_eq_cons.mpr ⟨?_, ?_⟩
      · refine (decide_eq_false ?_).symm
        omega
      · have ih := runChecks_window cfg key lo rest s hs
          (fun u hu => hts u (List.mem_cons_of_mem t hu))
        rw [ih]
        apply List.map_congr_left
        intro i _
        simp only [Function.comp_apply]
        rw [decide_eq_decide]
        omega
    · rw [if_neg hc]
      have hstate : updateKey s key (s key ++ [t]) key = s key ++ [t] :=
        updateKey_same s key (s key ++ [t])
      simp only [List.length_cons, List.range_succ_eq_map, List.map_cons, List.map_map]
      refine List.cons_eq_cons.mpr ⟨?_, ?_⟩
      · refine (decide_eq_true ?_).symm
        omega
      · have ih := runChecks_window cfg key lo rest
          (updateKey s key (s key ++ [t]))
          (by
            intro u hu
            rw [hstate] at hu
            rcases List.mem_append.mp hu with h | h
            · exact hs u h
            · rcases List.mem_singleton.mp h with rfl; exact ht)
          (fun u hu => hts u (List.mem_cons_of_mem t hu))
        rw [ih, hstate]
        apply List.map_congr_left
        intro i _
        simp only [Function.comp_apply, List.length_append, List.length_singleton]
        rw [decide_eq_decide]
        omega

/-- C2.  For every key, starting from the empty limiter state, in any
sequence of `isAllowed` checks whose call times all lie inside one burst
window `[lo, lo + windowMs)` (so that no recorded timestamp is ever
pruned, i.e. zero refill has elapsed), the i-th check is allowed exactly
when `i < maxRequests`: the first `maxRequests` checks are allowed and
the `(maxRequests+1)`-th is denied. -/
theorem rate_limiter_burst_exactly_capacity (cfg : RateLimitConfig) (key : String)
    (lo : Nat) (ts : List Nat)
    (hts : ∀ t ∈ ts, lo ≤ t ∧ t < lo + cfg.windowMs) :
    ∀ i < ts.length,
      (runChecks cfg key ts emptyState).1.getD i false = decide (i < cfg.maxRequests) := by
  intro i hi
  have h := runChecks_window cfg key lo ts emptyState (by intro u hu; cases hu) hts
  simp only [emptyState, List.length_nil, Nat.zero_add] at h
  rw [h]
  have hlen : i < ((List.range ts.length).map
      (fun j => decide (j < cfg.maxRequests))).length := by
    simpa using hi
  rw [List.getD_eq_getElem _ _ hlen]
  simp

/-- Witness for C2: with capacity 2 and window 1000, three checks at time 5
from the empty state yield allow, allow, deny. -/
theorem rate_limiter_burst_exactly_capacity_witness :
    (runChecks ⟨2, 1000⟩ "k" [5, 5, 5] emptyState).1.getD 0 false = true ∧
    (runChecks ⟨2, 1000⟩ "k" [5, 5, 5] emptyState).1.getD 1 false = true ∧
    (runChecks ⟨2, 1000⟩ "k" [5, 5, 5] emptyState).1.getD 2 false = false := by
  refine ⟨?_, ?_, ?_⟩
  · have h := rate_limiter_burst_exactly_capacity ⟨2, 1000⟩ "k" 5 [5, 5, 5]
      (by decide) 0 (by decide)
    simpa using h
  · have h := rate_limiter_burst_exactly_capacity ⟨2, 1000⟩ "k" 5 [5, 5, 5]
      (by decide) 1 (by decide)
    simpa using h
  · have h := rate_limiter_burst_exactly_capacity ⟨2, 1000⟩ "k" 5 [5, 5, 5]
      (by decide) 2 (by decide)
    simpa using h

/-- C3.  A denied check consumes nothing: when `isAllowed` returns `false`
the stored `requests` map is returned unchanged (for the checked key and
every other key), so any subsequent sequence of operations produces
exactly the outcomes it would have produced had the denied check never
happened. -/
theorem rate_limiter_deny_consumes_nothing (cfg : RateLimitConfig) (key : String)
    (now : Nat) (s : RLState)
    (h : (isAllowed cfg key now s).1 = false) :
    (isAllowed cfg key now s).2 = s ∧
    ∀ ops : List RLOp, runOps cfg ops (isAllowed cfg key now s).2 = runOps cfg ops s := by
  have hstate : (isAllowed cfg key now s).2 = s := by
    unfold isAllowed at h ⊢
    by_cases hc : cfg.maxRequests ≤
        ((s key).filter (fun time => decide (now < time + cfg.windowMs))).length
    · simp [hc]
    · simp [hc] at h
  exact ⟨hstate, fun ops => by rw [hstate]⟩

/-- Witness for C3: with capacity 0 every check is denied and the state is
returned unchanged. -/
theorem rate_limiter_deny_consumes_nothing_witness :
    (isAllowed ⟨0, 1000⟩ "k" 5 emptyState).1 = false ∧
    (isAllowed ⟨0, 1000⟩ "k" 5 emptyState).2 = emptyState := by
  have h : (isAllowed ⟨0, 1000⟩ "k" 5 emptyState).1 = false := rfl
  exact ⟨h, (rate_limiter_deny_consumes_nothing ⟨0, 1000⟩ "k" 5 emptyState h).1⟩

lemma isAllowed_capped (cfg : RateLimitConfig) (key : String) (now b : Nat)
    (s : RLState) (hb : Bounded s b) (hbn : b ≤ now) (hs : Capped cfg s) :
    Capped cfg (isAllowed cfg key now s).2 ∧ Bounded (isAllowed cfg key now s).2 now := by
  unfold isAllowed
  by_cases hc : cfg.maxRequests ≤
      ((s key).filter (fun time => decide (now < time + cfg.windowMs))).length
  · simp only [hc, if_true]
    exact ⟨hs, fun k u hu => le_trans (hb k u hu) hbn⟩
  · simp only [hc, if_false]
    constructor
    · intro k t
      by_cases hk : k = key
      · rw [hk, updateKey_same, List.filter_append, List.length_append]
        by_cases hin : (decide (t < now) && decide (now ≤ t + cfg.windowMs)) = true
        · have h2 : (List.filter (fun u => decide (t < u) && decide (u ≤ t + cfg.windowMs))
              [now]).length ≤ 1 := List.length_filter_le _ _
          have h1 : (List.filter (fun u => decide (t < u) && decide (u ≤ t + cfg.windowMs))
              ((s key).filter (fun time => decide (now < time + cfg.windowMs)))).length
              ≤ ((s key).filter (fun time => decide (now < time + cfg.windowMs))).length :=
            List.length_filter_le _ _
          omega
        · have h2 : (List.filter (fun u => decide (t < u) && decide (u ≤ t + cfg.windowMs))
              [now]).length = 0 := by
            rw [Bool.not_eq_true] at hin
            simp [List.filter, hin]
          have h1 : (List.filter (fun u => decide (t < u) && decide (u ≤ t + cfg.windowMs))
              ((s key).filter (fun time => decide (now < time + cfg.windowMs)))).length
              ≤ ((s key).filter
                  (fun u => decide (t < u) && decide (u ≤ t + cfg.windowMs))).length := by
            rw [List.filter_filter]
            rw [← List.countP_eq_length_filter, ← List.countP_eq_length_filter]
            apply List.countP_mono_left
            intro a _ ha
            rw [Bool.and_eq_true, Bool.and_eq_true] at ha
            rw [Bool.and_eq_true]
            exact ha.1
          have := hs key t
          omega
      · rw [updateKey_ne _ _ _ _ hk]
        exact hs k t
    · intro k u hu
      by_cases hk : k = key
      · rw [hk, updateKey_same] at hu
        rcases List.mem_append.mp hu with h | h
        · exact le_trans (hb key u (List.mem_of_mem_filter h)) hbn
        · rcases List.mem_singleton.mp h with rfl; exact le_refl _
      · rw [updateKey_ne _ _ _ _ hk] at hu
        exact le_trans (hb k u hu) hbn

lemma runOps_capped (cfg : RateLimitConfig) :
    ∀ (ops : List RLOp) (s : RLState) (b : Nat),
      Bounded s b → Capped cfg s → timesLB b ops = true →
      Capped cfg (runOps cfg ops s).2
  | [], s, b, _, hs, _ => by simpa [runOps] using hs
  | RLOp.check k t :: rest, s, b, hb, hs, hlb => by
    simp only [timesLB, Bool.and_eq_true, decide_eq_true_iff] at hlb
    have hstep := isAllowed_capped cfg k t b s hb hlb.1 hs
    simp only [runOps]
    exact runOps_capped cfg rest (isAllowed cfg k t s).2 t hstep.2 hstep.1 hlb.2
  | RLOp.reset k :: rest, s, b, hb, hs, hlb => by
    simp only [timesLB] at hlb
    simp only [runOps]
    apply runOps_capped cfg rest (reset k s) b
    · intro k' u hu
      unfold reset at hu
      by_cases hk : k' = k
      · rw [hk, updateKey_same] at hu
        cases hu
      · rw [updateKey_ne _ _ _ _ hk] at hu
        exact hb k' u hu
    · intro k' t
      unfold reset
      by_cases hk : k' = k
      · rw [hk, updateKey_same]
        simp
      · rw [updateKey_ne _ _ _ _ hk]
        exact hs k' t
    · exact hlb

/-- C9.  Sliding-window cap: after any sequence of `isAllowed` and `reset`
calls starting from the empty limiter state, with call times taken from a
non-decreasing clock, the number of recorded request timestamps for any
key falling inside any half-open time interval `(t, t + windowMs]` never
exceeds `maxRequests`. -/
theorem rate_limiter_sliding_window_cap (cfg : RateLimitConfig) (ops : List RLOp)
    (key : String) (t : Nat) (h : timesLB 0 ops = true) :
    (((runOps cfg ops emptyState).2 key).filter
        (fun u => decide (t < u) && decide (u ≤ t + cfg.windowMs))).length
      ≤ cfg.maxRequests := by
  have hcap : Capped cfg (runOps cfg ops emptyState).2 := by
    apply runOps_capped cfg ops emptyState 0
    · intro k u hu; cases hu
    · intro k t'; simp [emptyState]
    · exact h
  exact hcap key t

/-- Witness for C9: capacity 1, window 10; checks at times 1 and 2 with a
reset between them leave at most one timestamp in the window `(0, 10]`. -/
theorem rate_limiter_sliding_window_cap_witness :
    ((((runOps ⟨1, 10⟩
          [RLOp.check "k" 1, RLOp.reset "k", RLOp.check "k" 2]
          emptyState).2 "k").filter
        (fun u => decide (0 < u) && decide (u ≤ 0 + 10))).length ≤ 1) :=
  rate_limiter_sliding_window_cap ⟨1, 10⟩
    [RLOp.check "k" 1, RLOp.reset "k", RLOp.check "k" 2] "k" 0 (by decide)

end RateLimiter

/-! ## Matching engine (`lib/matching.ts`, booking application)

`MatchingEngine` computes six component scores per mentor, combines them
with fixed weights, rounds with `Math.round`, filters out non-positive
overall scores and sorts descending by overall score (JS `Array.sort` with
a numeric comparator, which is stable).  JS numbers are embedded as exact
rationals `ℚ`; `Math.round` (round half toward positive infinity) is
`jsRound`; the stable descending sort is `List.mergeSort`. -/

namespace Matching

/-- JS `String.prototype.toLowerCase()`, applied character by character. -/
def toLowerStr (s : String) : String := ⟨s.data.map Char.toLower⟩

structure MentorData where
  id : String
  expertise : List String
  industryFocus : List String
  stages : List String
  currentLoad : ℚ
  maxCapacity : ℚ
  rating : ℚ

structure FounderData where
  id : String
  targetExpertise : List String
  industryFocus : String
  stage : String

structure AvailabilityData where
  mentorId : String
  availableSlots : ℚ

/-- The `MatchingScore` record from `lib/types.ts` as populated by
`MatchingEngine.findMatches` (the optional `explanation`/`rank` fields are
never set by the engine). -/
structure MatchingScore where
  mentorId : String
  founderId : String
  overallScore : ℤ
  expertiseScore : ℤ
  industryScore : ℤ
  stageScore : ℤ
  availabilityScore : ℤ
  loadScore : ℤ
deriving DecidableEq

/-- JS `Math.round`: round half toward positive infinity. -/
def jsRound (q : ℚ) : ℤ := ⌊q + 1/2⌋

/-- `MatchingEngine.scoreExpertise` (lines 28–38). -/
def scoreExpertise (founder : FounderData) (mentor : MentorData) : ℚ :=
  if founder.targetExpertise.isEmpty then 50
  else
    let matched := (founder.targetExpertise.filter (fun skill =>
      mentor.expertise.any (fun m => toLowerStr m == toLowerStr skill))).length
    min 100 ((matched : ℚ) / (founder.targetExpertise.length : ℚ) * 100)

/-- `MatchingEngine.scoreIndustry` (lines 41–51); the JS falsy test
`!founder.industryFocus` is the empty string. -/
def scoreIndustry (founder : FounderData) (mentor : MentorData) : ℚ :=
  if founder.industryFocus = "" ∨ mentor.industryFocus = [] then 50
  else if mentor.industryFocus.any
      (fun ind => toLowerStr ind == toLowerStr founder.industryFocus) then 100
  else 30

/-- `MatchingEngine.scoreStage` (lines 54–61). -/
def scoreStage (founder : FounderData) (mentor : MentorData) : ℚ :=
  if founder.stage = "" ∨ mentor.stages = [] then 50
  else if mentor.stages.any
      (fun st => toLowerStr st == toLowerStr founder.stage) then 100
  else 40

/-- `MatchingEngine.scoreAvailability` (lines 64–70). -/
def scoreAvailability (availability : Option AvailabilityData) : ℚ :=
  match availability with
  | none => 0
  | some av => if av.availableSlots = 0 then 0 else min 100 (av.availableSlots * 20)

/-- `MatchingEngine.scoreLoad` (lines 73–80). -/
def scoreLoad (mentor : MentorData) : ℚ :=
  if mentor.maxCapacity = 0 then 0
  else max 0 (100 - mentor.currentLoad / mentor.maxCapacity * 100)

/-- `MatchingEngine.scoreReputation` (lines 83–86). -/
def scoreReputation (mentor : MentorData) : ℚ :=
  min 100 (mentor.rating / 5 * 100)

/-- `MatchingEngine.calculateOverallScore` (lines 89–115): fixed weights
expertise 30%, industry 20%, stage 20%, availability 15%, load 10%,
reputation 5%. -/
def calculateOverallScore (expertise industry stage availability load reputation : ℚ) :
    ℚ :=
  expertise * (3/10) + industry * (2/10) + stage * (2/10) +
    availability * (15/100) + load * (1/10) + reputation * (5/100)

/-- The per-mentor body of the `map` in `MatchingEngine.findMatches`
(lines 125–152): compute the six component scores, the weighted overall
score, and round every reported field. -/
def mkScore (founder : FounderData) (availabilityMap : List (String × AvailabilityData))
    (mentor : MentorData) : MatchingScore :=
  let expertiseScore := scoreExpertise founder mentor
  let industryScore := scoreIndustry founder mentor
  let stageScore := scoreStage founder mentor
  let availabilityScore := scoreAvailability (availabilityMap.lookup mentor.id)
  let loadScore := scoreLoad mentor
  let reputationScore := scoreReputation mentor
  let overallScore := calculateOverallScore expertiseScore industryScore stageScore
    availabilityScore loadScore reputationScore
  { mentorId := mentor.id
    founderId := founder.id
    overallScore := jsRound overallScore
    expertiseScore := jsRound expertiseScore
    industryScore := jsRound industryScore
    stageScore := jsRound stageScore
    availabilityScore := jsRound availabilityScore
    loadScore := jsRound loadScore }

/-- `MatchingEngine.findMatches` (lines 118–167): map, filter
`overallScore > 0`, stable sort descending by `overallScore`. -/
def findMatches (founder : FounderData) (mentors : List MentorData)
    (availabilityMap : List (String × AvailabilityData)) : List MatchingScore :=
  ((mentors.map (mkScore founder availabilityMap)).filter
      (fun m => decide (0 < m.overallScore))).mergeSort
    (fun a b => decide (b.overallScore ≤ a.overallScore))

/-- `MatchingEngine.getTopMatches` (lines 170–177): `slice(0, limit)`. -/
def getTopMatches (founder : FounderData) (mentors : List MentorData)
    (availabilityMap : List (String × AvailabilityData)) (limit : Nat) :
    List MatchingScore :=
  (findMatches founder mentors availabilityMap).take limit

/-- C8.  The booking application's scoring is a single deterministic
weighted-sum function: two runs of `findMatches` on equal inputs (founder,
mentor list, availability map — nothing else) return equal results, and
every returned entry is the score record of one of the input mentors whose
`overallScore` is the rounded fixed-weight sum
`0.3·expertise + 0.2·industry + 0.2·stage + 0.15·availability + 0.1·load
+ 0.05·reputation` of the component scores computed from the inputs. -/
theorem matching_engine_deterministic_weighted_sum :
    (∀ (f₁ f₂ : FounderData) (ms₁ ms₂ : List MentorData)
        (av₁ av₂ : List (String × AvailabilityData)),
      f₁ = f₂ → ms₁ = ms₂ → av₁ = av₂ →
      findMatches f₁ ms₁ av₁ = findMatches f₂ ms₂ av₂) ∧
    (∀ (f : FounderData) (ms : List MentorData)
        (av : List (String × AvailabilityData)) (r : MatchingScore),
      r ∈ findMatches f ms av →
      ∃ m, m ∈ ms ∧ r = mkScore f av m ∧
        r.overallScore = jsRound (calculateOverallScore
          (scoreExpertise f m) (scoreIndustry f m) (scoreStage f m)
          (scoreAvailability (av.lookup m.id)) (scoreLoad m) (scoreReputation m))) := by
  constructor
  · intro f₁ f₂ ms₁ ms₂ av₁ av₂ hf hms hav
    rw [hf, hms, hav]
  · intro f ms av r hr
    rw [findMatches, List.mem_mergeSort] at hr
    obtain ⟨hmem, _⟩ := List.mem_filter.mp hr
    obtain ⟨m, hm, heq⟩ := List.mem_map.mp hmem
    refine ⟨m, hm, heq.symm, ?_⟩
    rw [← heq]
    rfl

/-- Witness for C8 at a concrete input. -/
theorem matching_engine_deterministic_weighted_sum_witness :
    findMatches ⟨"f", [], "tech", "seed"⟩ [] [] =
      findMatches ⟨"f", [], "tech", "seed"⟩ [] [] :=
  matching_engine_deterministic_weighted_sum.1 _ _ _ _ _ _ rfl rfl rfl

lemma jsRound_intCast (n : ℤ) : jsRound ((n : ℚ)) = n := by
  unfold jsRound
  rw [add_comm, Int.floor_add_int]
  have h : ⌊(1/2 : ℚ)⌋ = 0 := by
    rw [Int.floor_eq_zero_iff, Set.mem_Ico]
    constructor <;> norm_num
  rw [h, zero_add]

lemma jsRound_bounds {q : ℚ} (h0 : 0 ≤ q) (h1 : q ≤ 100) :
    0 ≤ jsRound q ∧ jsRound q ≤ 100 := by
  unfold jsRound
  constructor
  · apply Int.le_floor.mpr
    push_cast
    linarith
  · have h2 : (q + 1/2 : ℚ) < ((101 : ℤ) : ℚ) := by push_cast; linarith
    have h3 := Int.floor_lt.mpr h2
    omega

lemma scoreExpertise_bounds (f : FounderData) (m : MentorData) :
    0 ≤ scoreExpertise f m ∧ scoreExpertise f m ≤ 100 := by
  simp only [scoreExpertise]
  split
  · norm_num
  · constructor
    · apply le_min
      · norm_num
      · positivity
    · exact min_le_left _ _

lemma scoreIndustry_bounds (f : FounderData) (m : MentorData) :
    0 ≤ scoreIndustry f m ∧ scoreIndustry f m ≤ 100 := by
  simp only [scoreIndustry]
  split
  · norm_num
  · split <;> norm_num

lemma scoreStage_bounds (f : FounderData) (m : MentorData) :
    0 ≤ scoreStage f m ∧ scoreStage f m ≤ 100 := by
  simp only [scoreStage]
  split
  · norm_num
  · split <;> norm_num

lemma scoreAvailability_bounds (o : Option AvailabilityData)
    (h : ∀ a, o = some a → 0 ≤ a.availableSlots) :
    0 ≤ scoreAvailability o ∧ scoreAvailability o ≤ 100 := by
  match o with
  | none => simp [scoreAvailability]
  | some a =>
    have ha := h a rfl
    simp only [scoreAvailability]
    split
    · norm_num
    · constructor
      · apply le_min
        · norm_num
        · nlinarith
      · exact min_le_left _ _

lemma scoreLoad_bounds (m : MentorData) (h1 : 0 ≤ m.currentLoad)
    (h2 : 0 ≤ m.maxCapacity) :
    0 ≤ scoreLoad m ∧ scoreLoad m ≤ 100 := by
  simp only [scoreLoad]
  split
  · norm_num
  · constructor
    · exact le_max_left _ _
    · apply max_le (by norm_num)
      have h3 : 0 ≤ m.currentLoad / m.maxCapacity * 100 := by positivity
      linarith

lemma lookup_av_nonneg :
    ∀ (av : List (String × AvailabilityData)) (k : String),
      (∀ p ∈ av, 0 ≤ p.2.availableSlots) →
      ∀ a : AvailabilityData, av.lookup k = some a → 0 ≤ a.availableSlots
  | [], k, hav, a, h => by simp [List.lookup] at h
  | (k', v) :: rest, k, hav, a, h => by
    rw [List.lookup] at h
    by_cases hk : k == k'
    · rw [hk] at h
      simp only [Option.some.injEq] at h
      rw [← h]
      exact hav (k', v) (List.mem_cons_self _ _)
    · rw [Bool.not_eq_true] at hk
      rw [hk] at h
      exact lookup_av_nonneg rest k
        (fun p hp => hav p (List.mem_cons_of_mem _ hp)) a h

/-- C10 (amended: only the component-score ranges need the nonnegative
availability / load / capacity inputs; each of those hypotheses is forced
by a concrete violating input exhibited in the counterexample).  Every
list returned by `findMatches` contains only entries with
`overallScore > 0` and is sorted in non-increasing order of
`overallScore`; `getTopMatches limit` returns the prefix `take limit` of
that list, of length at most `limit`; and, provided every availability
entry has nonnegative `availableSlots` and every mentor has nonnegative
`currentLoad` and `maxCapacity`, every reported component score lies in
`[0, 100]`. -/
theorem matching_output_shape (f : FounderData) (ms : List MentorData)
    (av : List (String × AvailabilityData)) (limit : Nat) :
    (∀ r ∈ findMatches f ms av, 0 < r.overallScore) ∧
    List.Sorted (fun a b : MatchingScore => b.overallScore ≤ a.overallScore)
      (findMatches f ms av) ∧
    getTopMatches f ms av limit = (findMatches f ms av).take limit ∧
    (getTopMatches f ms av limit).length ≤ limit ∧
    ((∀ p ∈ av, 0 ≤ p.2.availableSlots) →
      (∀ m ∈ ms, 0 ≤ m.currentLoad ∧ 0 ≤ m.maxCapacity) →
      ∀ r ∈ findMatches f ms av,
        (0 ≤ r.expertiseScore ∧ r.expertiseScore ≤ 100) ∧
        (0 ≤ r.industryScore ∧ r.industryScore ≤ 100) ∧
        (0 ≤ r.stageScore ∧ r.stageScore ≤ 100) ∧
        (0 ≤ r.availabilityScore ∧ r.availabilityScore ≤ 100) ∧
        (0 ≤ r.loadScore ∧ r.loadScore ≤ 100)) := by
  refine ⟨?_, ?_, rfl, ?_, ?_⟩
  · intro r hr
    rw [findMatches, List.mem_mergeSort, List.mem_filter] at hr
    exact of_decide_eq_true hr.2
  · rw [findMatches]
    refine List.Pairwise.imp ?_ (List.sorted_mergeSort ?_ ?_
      ((ms.map (mkScore f av)).filter (fun m => decide (0 < m.overallScore))))
    · intro a b hab
      exact of_decide_eq_true hab
    · intro a b c hab hbc
      exact decide_eq_true (le_trans (of_decide_eq_true hbc) (of_decide_eq_true hab))
    · intro a b
      rcases le_total a.overallScore b.overallScore with h | h
      · simp [h]
      · simp [h]
  · rw [getTopMatches, List.length_take]
    exact min_le_left _ _
  · intro hav hm r hr
    rw [findMatches, List.mem_mergeSort, List.mem_filter] at hr
    obtain ⟨m, hmem, heq⟩ := List.mem_map.mp hr.1
    obtain ⟨hl, hc⟩ := hm m hmem
    rw [← heq]
    have he := scoreExpertise_bounds f m
    have hi := scoreIndustry_bounds f m
    have hst := scoreStage_bounds f m
    have hav' := scoreAvailability_bounds (av.lookup m.id)
      (fun a ha => lookup_av_nonneg av m.id hav a ha)
    have hlo := scoreLoad_bounds m hl hc
    exact ⟨jsRound_bounds he.1 he.2, jsRound_bounds hi.1 hi.2,
      jsRound_bounds hst.1 hst.2, jsRound_bounds hav'.1 hav'.2,
      jsRound_bounds hlo.1 hlo.2⟩

/-- Inputs on which the component-score-range part of C10 (as stated,
over all inputs) fails, one per violated nonnegativity condition: an
availability entry with `-1` slots, a mentor with negative `currentLoad`,
and a mentor with negative `maxCapacity`. -/
def cexFounder : FounderData := ⟨"f", [], "tech", "seed"⟩

def cexMentor : MentorData := ⟨"m1", [], ["tech"], ["seed"], 0, 0, 5⟩

def cexAvail : List (String × AvailabilityData) := [("m1", ⟨"m1", -1⟩)]

def cexMentor2 : MentorData := ⟨"m2", [], ["tech"], ["seed"], -1, 1, 5⟩

def cexAvail2 : List (String × AvailabilityData) := [("m2", ⟨"m2", 2⟩)]

def cexMentor3 : MentorData := ⟨"m3", [], ["tech"], ["seed"], 1, -1, 5⟩

def cexAvail3 : List (String × AvailabilityData) := [("m3", ⟨"m3", 2⟩)]

/-- A well-behaved availability map for the witness. -/
def okAvail : List (String × AvailabilityData) := [("m1", ⟨"m1", 2⟩)]

lemma jsRound_eq (q : ℚ) (n : ℤ) (h : q = (n : ℚ)) : jsRound q = n := by
  rw [h, jsRound_intCast]

lemma cex_expertise : scoreExpertise cexFounder cexMentor = 50 := by
  simp [scoreExpertise, cexFounder]

lemma cex_industry : scoreIndustry cexFounder cexMentor = 100 := by
  simp [scoreIndustry, cexFounder, cexMentor]

lemma cex_stage : scoreStage cexFounder cexMentor = 100 := by
  simp [scoreStage, cexFounder, cexMentor]

lemma cex_avail : scoreAvailability (cexAvail.lookup cexMentor.id) = -20 := by
  have hl : cexAvail.lookup cexMentor.id = some ⟨"m1", -1⟩ := rfl
  rw [hl]
  simp only [scoreAvailability]
  rw [if_neg (by norm_num : ¬((-1 : ℚ) = 0))]
  norm_num [min_def]

lemma cex_load : scoreLoad cexMentor = 0 := by
  simp [scoreLoad, cexMentor]

lemma cex_rep : scoreReputation cexMentor = 100 := by
  simp only [scoreReputation, cexMentor]
  norm_num [min_def]

lemma cex_mkScore : mkScore cexFounder cexAvail cexMentor =
    ⟨"m1", "f", 57, 50, 100, 100, -20, 0⟩ := by
  have hov : calculateOverallScore 50 100 100 (-20) 0 100 = 57 := by
    rw [calculateOverallScore]
    norm_num
  simp only [mkScore, cex_expertise, cex_industry, cex_stage, cex_avail,
    cex_load, cex_rep, hov, jsRound_eq 57 57 (by norm_num),
    jsRound_eq 50 50 (by norm_num), jsRound_eq 100 100 (by norm_num),
    jsRound_eq (-20) (-20) (by norm_num), jsRound_eq 0 0 (by norm_num)]
  rfl

lemma cex_member :
    (⟨"m1", "f", 57, 50, 100, 100, -20, 0⟩ : MatchingScore) ∈
      findMatches cexFounder [cexMentor] cexAvail := by
  rw [findMatches, List.mem_mergeSort]
  apply List.mem_filter.mpr
  refine ⟨?_, by decide⟩
  exact List.mem_map.mpr ⟨cexMentor, List.mem_singleton_self _, cex_mkScore⟩

lemma cex2_expertise : scoreExpertise cexFounder cexMentor2 = 50 := by
  simp [scoreExpertise, cexFounder]

lemma cex2_industry : scoreIndustry cexFounder cexMentor2 = 100 := by
  simp [scoreIndustry, cexFounder, cexMentor2]

lemma cex2_stage : scoreStage cexFounder cexMentor2 = 100 := by
  simp [scoreStage, cexFounder, cexMentor2]

lemma cex2_avail : scoreAvailability (cexAvail2.lookup cexMentor2.id) = 40 := by
  have hl : cexAvail2.lookup cexMentor2.id = some ⟨"m2", 2⟩ := rfl
  rw [hl]
  simp only [scoreAvailability]
  rw [if_neg (by norm_num : ¬((2 : ℚ) = 0))]
  norm_num [min_def]

lemma cex2_load : scoreLoad cexMentor2 = 200 := by
  simp only [scoreLoad, cexMentor2]
  rw [if_neg (by norm_num : ¬((1 : ℚ) = 0))]
  norm_num [max_def]

lemma cex2_rep : scoreReputation cexMentor2 = 100 := by
  simp only [scoreReputation, cexMentor2]
  norm_num [min_def]

lemma cex2_mkScore : mkScore cexFounder cexAvail2 cexMentor2 =
    ⟨"m2", "f", 86, 50, 100, 100, 40, 200⟩ := by
  have hov : calculateOverallScore 50 100 100 40 200 100 = 86 := by
    rw [calculateOverallScore]
    norm_num
  simp only [mkScore, cex2_expertise, cex2_industry, cex2_stage, cex2_avail,
    cex2_load, cex2_rep, hov, jsRound_eq 86 86 (by norm_num),
    jsRound_eq 50 50 (by norm_num), jsRound_eq 100 100 (by norm_num),
    jsRound_eq 40 40 (by norm_num), jsRound_eq 200 200 (by norm_num)]
  rfl

lemma cex2_member :
    (⟨"m2", "f", 86, 50, 100, 100, 40, 200⟩ : MatchingScore) ∈
      findMatches cexFounder [cexMentor2] cexAvail2 := by
  rw [findMatches, List.mem_mergeSort]
  apply List.mem_filter.mpr
  refine ⟨?_, by decide⟩
  exact List.mem_map.mpr ⟨cexMentor2, List.mem_singleton_self _, cex2_mkScore⟩

lemma cex3_expertise : scoreExpertise cexFounder cexMentor3 = 50 := by
  simp [scoreExpertise, cexFounder]

lemma cex3_industry : scoreIndustry cexFounder cexMentor3 = 100 := by
  simp [scoreIndustry, cexFounder, cexMentor3]

lemma cex3_stage : scoreStage cexFounder cexMentor3 = 100 := by
  simp [scoreStage, cexFounder, cexMentor3]

lemma cex3_avail : scoreAvailability (cexAvail3.lookup cexMentor3.id) = 40 := by
  have hl : cexAvail3.lookup cexMentor3.id = some ⟨"m3", 2⟩ := rfl
  rw [hl]
  simp only [scoreAvailability]
  rw [if_neg (by norm_num : ¬((2 : ℚ) = 0))]
  norm_num [min_def]

lemma cex3_load : scoreLoad cexMentor3 = 200 := by
  simp only [scoreLoad, cexMentor3]
  rw [if_neg (by norm_num : ¬((-1 : ℚ) = 0))]
  norm_num [max_def]

lemma cex3_rep : scoreReputation cexMentor3 = 100 := by
  simp only [scoreReputation, cexMentor3]
  norm_num [min_def]

lemma cex3_mkScore : mkScore cexFounder cexAvail3 cexMentor3 =
    ⟨"m3", "f", 86, 50, 100, 100, 40, 200⟩ := by
  have hov : calculateOverallScore 50 100 100 40 200 100 = 86 := by
    rw [calculateOverallScore]
    norm_num
  simp only [mkScore, cex3_expertise, cex3_industry, cex3_stage, cex3_avail,
    cex3_load, cex3_rep, hov, jsRound_eq 86 86 (by norm_num),
    jsRound_eq 50 50 (by norm_num), jsRound_eq 100 100 (by norm_num),
    jsRound_eq 40 40 (by norm_num), jsRound_eq 200 200 (by norm_num)]
  rfl

lemma cex3_member :
    (⟨"m3", "f", 86, 50, 100, 100, 40, 200⟩ : MatchingScore) ∈
      findMatches cexFounder [cexMentor3] cexAvail3 := by
  rw [findMatches, List.mem_mergeSort]
  apply List.mem_filter.mpr
  refine ⟨?_, by decide⟩
  exact List.mem_map.mpr ⟨cexMentor3, List.mem_singleton_self _, cex3_mkScore⟩

lemma ok_avail : scoreAvailability (okAvail.lookup cexMentor.id) = 40 := by
  have hl : okAvail.lookup cexMentor.id = some ⟨"m1", 2⟩ := rfl
  rw [hl]
  simp only [scoreAvailability]
  rw [if_neg (by norm_num : ¬((2 : ℚ) = 0))]
  norm_num [min_def]

lemma ok_mkScore : mkScore cexFounder okAvail cexMentor =
    ⟨"m1", "f", 66, 50, 100, 100, 40, 0⟩ := by
  have hov : calculateOverallScore 50 100 100 40 0 100 = 66 := by
    rw [calculateOverallScore]
    norm_num
  simp only [mkScore, cex_expertise, cex_industry, cex_stage, ok_avail,
    cex_load, cex_rep, hov, jsRound_eq 66 66 (by norm_num),
    jsRound_eq 50 50 (by norm_num), jsRound_eq 100 100 (by norm_num),
    jsRound_eq 40 40 (by norm_num), jsRound_eq 0 0 (by norm_num)]
  rfl

lemma ok_member :
    (⟨"m1", "f", 66, 50, 100, 100, 40, 0⟩ : MatchingScore) ∈
      findMatches cexFounder [cexMentor] okAvail := by
  rw [findMatches, List.mem_mergeSort]
  apply List.mem_filter.mpr
  refine ⟨?_, by decide⟩
  exact List.mem_map.mpr ⟨cexMentor, List.mem_singleton_self _, ok_mkScore⟩

/-- Witness for C10 (amended), instantiated at a concrete input; the
range conjunct's nonnegativity hypotheses are discharged at a
well-behaved availability map and applied to a concrete returned
entry. -/
theorem matching_output_shape_witness :
    getTopMatches cexFounder [cexMentor] okAvail 5 =
      (findMatches cexFounder [cexMentor] okAvail).take 5 ∧
    (getTopMatches cexFounder [cexMentor] okAvail 5).length ≤ 5 ∧
    (0 ≤ (⟨"m1", "f", 66, 50, 100, 100, 40, 0⟩ :
        MatchingScore).availabilityScore ∧
      (⟨"m1", "f", 66, 50, 100, 100, 40, 0⟩ :
        MatchingScore).availabilityScore ≤ 100) := by
  have h := matching_output_shape cexFounder [cexMentor] okAvail 5
  refine ⟨h.2.2.1, h.2.2.2.1, ?_⟩
  have hav : ∀ p ∈ okAvail, 0 ≤ p.2.availableSlots := by
    intro p hp
    simp only [okAvail, List.mem_singleton] at hp
    subst hp
    norm_num
  have hm : ∀ m ∈ [cexMentor], 0 ≤ m.currentLoad ∧ 0 ≤ m.maxCapacity := by
    intro m hm'
    simp only [List.mem_singleton] at hm'
    subst hm'
    constructor <;> simp [cexMentor]
  exact (h.2.2.2.2 hav hm _ ok_member).2.2.2.1

/-- Counterexample for C10 as stated: returned entries can report an
availability component of `-20` (negative `availableSlots`) and a load
component of `200` (negative `currentLoad`, and separately negative
`maxCapacity`), so it is not the case that every component score of every
returned entry lies in `[0, 100]`; the three exhibited memberships force
each nonnegativity hypothesis of the amended claim. -/
theorem matching_component_range_counterexample :
    (¬ ∀ (f : FounderData) (ms : List MentorData)
        (av : List (String × AvailabilityData)),
        ∀ r ∈ findMatches f ms av,
          (0 ≤ r.availabilityScore ∧ r.availabilityScore ≤ 100) ∧
          (0 ≤ r.loadScore ∧ r.loadScore ≤ 100)) ∧
    (⟨"m1", "f", 57, 50, 100, 100, -20, 0⟩ : MatchingScore) ∈
      findMatches cexFounder [cexMentor] cexAvail ∧
    (⟨"m2", "f", 86, 50, 100, 100, 40, 200⟩ : MatchingScore) ∈
      findMatches cexFounder [cexMentor2] cexAvail2 ∧
    (⟨"m3", "f", 86, 50, 100, 100, 40, 200⟩ : MatchingScore) ∈
      findMatches cexFounder [cexMentor3] cexAvail3 := by
  refine ⟨?_, cex_member, cex2_member, cex3_member⟩
  intro h
  have h2 := (h cexFounder [cexMentor] cexAvail _ cex_member).1.1
  exact absurd h2 (by decide)

end Matching

/-! ## Ingestion Service and Idempotency Index (spec §4.1, §3)

The backend implementing ingestion exists in the repository only as
declarations: the `idempotency_keys` SQL schema and request JSON schema in
the PRD (`src/unnamed/part_009`), the frontend API client, and the queue
wiring.  The service itself is therefore modelled from the spec. -/

namespace Ingest

/-- Modelled from the spec: an ingestion request `{type, source, data,
metadata?}` (§4.1); `data` is an opaque payload, `idemKey` is the optional
`metadata.idempotency_key`. -/
structure Request where
  etype : String
  source : String
  payload : String
  idemKey : Option String
deriving DecidableEq

/-- Modelled from the spec: validation of `type` and `source` (non-empty,
bounded length 256 per the PRD's JSON schema). -/
def validReq (r : Request) : Bool :=
  decide (1 ≤ r.etype.length) && decide (r.etype.length ≤ 256) &&
    decide (1 ≤ r.source.length) && decide (r.source.length ≤ 256)

/-- Modelled from the spec: a stored Event row (§3), with a time-ordered
unique id issued by the store. -/
structure StoredEvent where
  id : Nat
  account : String
  etype : String
  source : String
  payload : String
deriving DecidableEq

/-- Modelled from the spec: an IdempotencyRecord `(key scoped to account,
event_id, expires_at)` (§3); key scoping is per-account as the spec
assumes in §9. -/
structure IdemRecord where
  account : String
  key : String
  event_id : Nat
  expires_at : Nat
deriving DecidableEq

/-- Modelled from the spec: ingestion-side configuration — the fixed
idempotency TTL (e.g. 24h) and the rate-limit bucket capacity per
account. -/
structure IngestConfig where
  ttl : Nat
  capacity : Nat
deriving DecidableEq

/-- Modelled from the spec: the durable state the Ingestion Service
coordinates through — the Event Store (append-only), the Idempotency
Index, the ingestion queue towards the Dispatcher, and the per-account
token buckets (an association list, most recent entry first; a missing
entry is a lazily reconstructed full bucket). -/
structure IngestState where
  nextId : Nat
  events : List StoredEvent
  idem : List IdemRecord
  queue : List Nat
  tokens : List (String × Nat)
deriving DecidableEq

/-- Modelled from the spec: ingestion outcome — 201-created, 200-idempotent
replay, 429 rate-limited, 400 invalid, or an internal store error (a
dangling idempotency record). -/
inductive IngestResult where
  | created (e : StoredEvent)
  | replayed (e : StoredEvent)
  | rateLimited
  | invalid
  | storeError
deriving DecidableEq

/-- Remaining tokens for an account (a missing bucket is full). -/
def tokensOf (cfg : IngestConfig) (s : IngestState) (account : String) : Nat :=
  (s.tokens.lookup account).getD cfg.capacity

/-- Modelled from the spec (§4.1, create path): admit through the rate
limiter, persist the Event with a fresh id, write an IdempotencyRecord
expiring at `now + ttl` when a key was supplied, and enqueue the event id
for the Dispatcher. -/
def createEvent (cfg : IngestConfig) (account : String) (r : Request) (now : Nat)
    (s : IngestState) : IngestResult × IngestState :=
  if tokensOf cfg s account = 0 then (IngestResult.rateLimited, s)
  else
    let e : StoredEvent := ⟨s.nextId, account, r.etype, r.source, r.payload⟩
    let idemNew := match r.idemKey with
      | some k => s.idem ++ [⟨account, k, s.nextId, now + cfg.ttl⟩]
      | none => s.idem
    (IngestResult.created e,
      { nextId := s.nextId + 1
        events := s.events ++ [e]
        idem := idemNew
        queue := s.queue ++ [e.id]
        tokens := (account, tokensOf cfg s account - 1) :: s.tokens })

/-- Modelled from the spec (§4.1): validate; if `idempotency_key` is
present, look the record up for `(account, key)` and, when unexpired,
return the existing Event unchanged without touching any state; otherwise
run the create path. -/
def ingest (cfg : IngestConfig) (account : String) (r : Request) (now : Nat)
    (s : IngestState) : IngestResult × IngestState :=
  if ¬ validReq r then (IngestResult.invalid, s)
  else
    match r.idemKey with
    | some k =>
      match s.idem.find? (fun ir =>
          ir.account == account && ir.key == k && decide (now < ir.expires_at)) with
      | some ir =>
        match s.events.find? (fun e => e.id == ir.event_id) with
        | some e => (IngestResult.replayed e, s)
        | none => (IngestResult.storeError, s)
      | none => createEvent cfg account r now s
    | none => createEvent cfg account r now s

/-- Repeated submissions of one request at the given times. -/
def runIngest (cfg : IngestConfig) (account : String) (r : Request) :
    List Nat → IngestState → List IngestResult × IngestState
  | [], s => ([], s)
  | t :: rest, s =>
    let o := ingest cfg account r t s
    let o2 := runIngest cfg account r rest o.2
    (o.1 :: o2.1, o2.2)

/-- C1.  Spec-modelled idempotent ingestion: if submitting a valid request
carrying idempotency key `k` for an account creates an Event `e` (writing
an IdempotencyRecord), then every repeated submission of the same request
within the TTL returns `(replayed e, unchanged state)`: the same Event id
in every response, exactly one Event created (the store grew by one), no
duplicate Event and no additional delivery enqueued — including along any
sequence of repeats. -/
theorem ingest_idempotent_replay (cfg : IngestConfig) (account : String)
    (r : Request) (k : String) (t1 : Nat) (s0 : IngestState) (e : StoredEvent)
    (s1 : IngestState)
    (hk : r.idemKey = some k)
    (hfresh : ∀ ev ∈ s0.events, ev.id < s0.nextId)
    (h1 : ingest cfg account r t1 s0 = (IngestResult.created e, s1)) :
    (∀ t2, t1 ≤ t2 → t2 < t1 + cfg.ttl →
      ingest cfg account r t2 s1 = (IngestResult.replayed e, s1)) ∧
    s1.events.length = s0.events.length + 1 ∧
    (∀ ts : List Nat, (∀ t' ∈ ts, t1 ≤ t' ∧ t' < t1 + cfg.ttl) →
      runIngest cfg account r ts s1 =
        (ts.map (fun _ => IngestResult.replayed e), s1)) := by
  by_cases hv : validReq r
  case neg =>
    rw [ingest, if_pos hv] at h1
    simp at h1
  case pos =>
    rw [ingest, if_neg (not_not_intro hv)] at h1
    simp only [hk] at h1
    cases hfind : s0.idem.find? (fun ir =>
        ir.account == account && ir.key == k && decide (t1 < ir.expires_at)) with
    | some ir =>
      simp only [hfind] at h1
      cases hfind2 : s0.events.find? (fun ev => ev.id == ir.event_id) with
      | some e0 => simp only [hfind2] at h1; simp at h1
      | none => simp only [hfind2] at h1; simp at h1
    | none =>
      simp only [hfind] at h1
      rw [createEvent] at h1
      by_cases htok : tokensOf cfg s0 account = 0
      · rw [if_pos htok] at h1
        simp at h1
      · rw [if_neg htok] at h1
        simp only [hk, Prod.mk.injEq, IngestResult.created.injEq] at h1
        obtain ⟨he, hs1⟩ := h1
        subst he
        subst hs1
        have hnone := List.find?_eq_none.mp hfind
        have hstep : ∀ t2, t1 ≤ t2 → t2 < t1 + cfg.ttl →
            ingest cfg account r t2
              { nextId := s0.nextId + 1
                events := s0.events ++
                  [⟨s0.nextId, account, r.etype, r.source, r.payload⟩]
                idem := s0.idem ++ [⟨account, k, s0.nextId, t1 + cfg.ttl⟩]
                queue := s0.queue ++ [s0.nextId]
                tokens := (account, tokensOf cfg s0 account - 1) :: s0.tokens } =
              (IngestResult.replayed
                ⟨s0.nextId, account, r.etype, r.source, r.payload⟩,
               { nextId := s0.nextId + 1
                 events := s0.events ++
                   [⟨s0.nextId, account, r.etype, r.source, r.payload⟩]
                 idem := s0.idem ++ [⟨account, k, s0.nextId, t1 + cfg.ttl⟩]
                 queue := s0.queue ++ [s0.nextId]
                 tokens := (account, tokensOf cfg s0 account - 1) ::
                   s0.tokens }) := by
          intro t2 h12 h2ttl
          rw [ingest, if_neg (not_not_intro hv)]
          simp only [hk]
          have hfind' : (s0.idem ++
              ([⟨account, k, s0.nextId, t1 + cfg.ttl⟩] : List IdemRecord)).find?
              (fun ir => ir.account == account && ir.key == k &&
                decide (t2 < ir.expires_at)) =
              some (⟨account, k, s0.nextId, t1 + cfg.ttl⟩ : IdemRecord) := by
            rw [List.find?_append]
            have hleft : s0.idem.find? (fun ir => ir.account == account &&
                ir.key == k && decide (t2 < ir.expires_at)) = none := by
              apply List.find?_eq_none.mpr
              intro ir hir
              have hold := hnone ir hir
              intro hcon
              apply hold
              rw [Bool.and_eq_true, Bool.and_eq_true] at hcon
              rw [Bool.and_eq_true, Bool.and_eq_true]
              refine ⟨⟨hcon.1.1, hcon.1.2⟩, ?_⟩
              have h2 := of_decide_eq_true hcon.2
              rw [decide_eq_true_iff]
              omega
            rw [hleft]
            simp only [Option.none_or]
            apply List.find?_cons_of_pos
            simp [h2ttl]
          simp only [hfind']
          have hev : (s0.events ++
              ([⟨s0.nextId, account, r.etype, r.source, r.payload⟩] :
                List StoredEvent)).find?
              (fun ev => ev.id == s0.nextId) =
              some (⟨s0.nextId, account, r.etype, r.source, r.payload⟩ :
                StoredEvent) := by
            rw [List.find?_append]
            have hleft : s0.events.find? (fun ev => ev.id == s0.nextId) = none := by
              apply List.find?_eq_none.mpr
              intro ev hev'
              have := hfresh ev hev'
              simp only [beq_iff_eq]
              omega
            rw [hleft]
            simp only [Option.none_or]
            apply List.find?_cons_of_pos
            simp
          simp only [hev]
        refine ⟨hstep, by simp, ?_⟩
        intro ts hts
        induction ts with
        | nil => rfl
        | cons t' rest ih =>
          have ht' := hts t' (List.mem_cons_self t' rest)
          have hrest := ih (fun u hu => hts u (List.mem_cons_of_mem t' hu))
          rw [runIngest]
          rw [hstep t' ht'.1 ht'.2]
          simp only [List.map_cons, Prod.mk.injEq, List.cons_eq_cons]
          exact ⟨⟨trivial, congrArg Prod.fst hrest⟩, congrArg Prod.snd hrest⟩

/-- Concrete data for the C1 witness. -/
def wReq : Request := ⟨"order.created", "shop", "d", some "k1"⟩

def wEvent : StoredEvent := ⟨0, "a", "order.created", "shop", "d"⟩

def wS1 : IngestState := ⟨1, [wEvent], [⟨"a", "k1", 0, 110⟩], [0], [("a", 0)]⟩

/-- Witness for C1: the event created at time 10 with TTL 100 is replayed
unchanged at time 50. -/
theorem ingest_idempotent_replay_witness :
    ingest ⟨100, 1⟩ "a" wReq 50 wS1 = (IngestResult.replayed wEvent, wS1) := by
  have h := ingest_idempotent_replay ⟨100, 1⟩ "a" wReq "k1" 10 ⟨0, [], [], [], []⟩
    wEvent wS1 rfl (by decide) (by decide)
  exact h.1 50 (by decide) (by decide)

end Ingest

/-! ## Delivery Worker Pool: retry, backoff and DLQ (spec §4.3)

The Delivery Worker Pool exists in the repository only as declarations
(the `deliveries` SQS queue in
`infrastructure/terraform/modules/sqs/main.tf` and the PRD), so the
per-(event, subscription) retry loop is modelled from the spec. -/

namespace Delivery

/-- Modelled from the spec: a subscription's `retry_policy`
(`max_attempts`, `initial_delay`, `max_delay`, `multiplier`). -/
structure RetryPolicy where
  max_attempts : Nat
  initial_delay : Nat
  max_delay : Nat
  multiplier : Nat
deriving DecidableEq

/-- A DeliveryAttempt row: 1-based attempt number and outcome. -/
structure AttemptRec where
  number : Nat
  ok : Bool
deriving DecidableEq

/-- A re-enqueued retry DeliveryTask: the attempt number it will perform
and the enqueue delay. -/
structure TaskRec where
  number : Nat
  delay : Nat
deriving DecidableEq

/-- The audit trail of one (event, subscription) delivery: the recorded
DeliveryAttempts, the retry tasks that were re-enqueued, and the number of
DLQItems created for the pair. -/
structure DeliveryTrace where
  attempts : List AttemptRec
  tasks : List TaskRec
  dlqCount : Nat
deriving DecidableEq

/-- Modelled from the spec (§4.3): the retry backoff
`min(max_delay, initial_delay * multiplier ^ attempt_number)`. -/
def retryDelay (p : RetryPolicy) (n : Nat) : Nat :=
  min p.max_delay (p.initial_delay * p.multiplier ^ n)

/-- Modelled from the spec (§4.3): process the delivery of one (event,
subscription) pair starting at attempt number `n`, with `outcomes`
giving the success/failure of each HTTP call and `jitter` the random
jitter added to each re-enqueue delay.  A success stops; a failure below
`max_attempts` re-enqueues attempt `n+1` with delay
`retryDelay p n + jitter n`; a failure at `max_attempts` moves the pair
to the DLQ. -/
def deliverFrom (p : RetryPolicy) (jitter : Nat → Nat) :
    Nat → List Bool → DeliveryTrace
  | _, [] => ⟨[], [], 0⟩
  | n, outcome :: rest =>
    if outcome then ⟨[⟨n, true⟩], [], 0⟩
    else if n < p.max_attempts then
      let t := deliverFrom p jitter (n + 1) rest
      ⟨⟨n, false⟩ :: t.attempts, ⟨n + 1, retryDelay p n + jitter n⟩ :: t.tasks,
        t.dlqCount⟩
    else ⟨[⟨n, false⟩], [], 1⟩

/-- Full delivery of a task, attempts numbered from 1. -/
def deliver (p : RetryPolicy) (jitter : Nat → Nat) (outcomes : List Bool) :
    DeliveryTrace :=
  deliverFrom p jitter 1 outcomes

lemma deliverFrom_numbers (p : RetryPolicy) (jitter : Nat → Nat) :
    ∀ (outcomes : List Bool) (n : Nat),
      (deliverFrom p jitter n outcomes).attempts.map AttemptRec.number =
        List.range' n (deliverFrom p jitter n outcomes).attempts.length
  | [], n => by simp [deliverFrom]
  | outcome :: rest, n => by
    rw [deliverFrom]
    by_cases ho : outcome
    · simp [ho]
    · rw [if_neg ho]
      by_cases hn : n < p.max_attempts
      · rw [if_pos hn]
        simp only [List.map_cons, List.length_cons, List.range'_succ]
        rw [List.cons_eq_cons]
        exact ⟨rfl, deliverFrom_numbers p jitter rest (n + 1)⟩
      · rw [if_neg hn]
        simp

lemma deliverFrom_le (p : RetryPolicy) (jitter : Nat → Nat) :
    ∀ (outcomes : List Bool) (n : Nat), n ≤ p.max_attempts →
      ∀ a ∈ (deliverFrom p jitter n outcomes).attempts, a.number ≤ p.max_attempts
  | [], n, hn, a, ha => by simp [deliverFrom] at ha
  | outcome :: rest, n, hn, a, ha => by
    rw [deliverFrom] at ha
    by_cases ho : outcome
    · rw [if_pos ho] at ha
      rcases List.mem_singleton.mp ha with rfl
      exact hn
    · rw [if_neg ho] at ha
      by_cases hm : n < p.max_attempts
      · rw [if_pos hm] at ha
        rcases List.mem_cons.mp ha with h | h
        · rw [h]; exact hn
        · exact deliverFrom_le p jitter rest (n + 1) hm a h
      · rw [if_neg hm] at ha
        rcases List.mem_singleton.mp ha with rfl
        exact hn

lemma deliverFrom_tasks (p : RetryPolicy) (jitter : Nat → Nat) :
    ∀ (outcomes : List Bool) (n : Nat), 1 ≤ n →
      ∀ t ∈ (deliverFrom p jitter n outcomes).tasks,
        2 ≤ t.number ∧ t.number ≤ p.max_attempts ∧
          t.delay = retryDelay p (t.number - 1) + jitter (t.number - 1)
  | [], n, hn, t, ht => by simp [deliverFrom] at ht
  | outcome :: rest, n, hn, t, ht => by
    rw [deliverFrom] at ht
    by_cases ho : outcome
    · rw [if_pos ho] at ht
      simp at ht
    · rw [if_neg ho] at ht
      by_cases hm : n < p.max_attempts
      · rw [if_pos hm] at ht
        rcases List.mem_cons.mp ht with rfl | h
        · exact ⟨show 2 ≤ n + 1 by omega, show n + 1 ≤ p.max_attempts from hm, rfl⟩
        · exact deliverFrom_tasks p jitter rest (n + 1) (by omega) t h
      · rw [if_neg hm] at ht
        simp at ht

lemma deliverFrom_dlq_le_one (p : RetryPolicy) (jitter : Nat → Nat) :
    ∀ (outcomes : List Bool) (n : Nat),
      (deliverFrom p jitter n outcomes).dlqCount ≤ 1
  | [], n => by simp [deliverFrom]
  | outcome :: rest, n => by
    rw [deliverFrom]
    by_cases ho : outcome
    · simp [ho]
    · rw [if_neg ho]
      by_cases hm : n < p.max_attempts
      · rw [if_pos hm]
        exact deliverFrom_dlq_le_one p jitter rest (n + 1)
      · rw [if_neg hm]

lemma deliverFrom_dlq_all_fail (p : RetryPolicy) (jitter : Nat → Nat) :
    ∀ (outcomes : List Bool) (n : Nat),
      (∀ o ∈ outcomes, o = false) → n ≤ p.max_attempts →
      p.max_attempts + 1 ≤ n + outcomes.length →
      (deliverFrom p jitter n outcomes).dlqCount = 1
  | [], n, _, hn, hlen => by
    simp only [List.length_nil] at hlen
    omega
  | outcome :: rest, n, hall, hn, hlen => by
    have ho : outcome = false := hall outcome (List.mem_cons_self _ _)
    rw [deliverFrom, ho, if_neg (by simp)]
    by_cases hm : n < p.max_attempts
    · rw [if_pos hm]
      refine deliverFrom_dlq_all_fail p jitter rest (n + 1)
        (fun o ho' => hall o (List.mem_cons_of_mem _ ho')) (by omega) ?_
      simp only [List.length_cons] at hlen
      omega
    · rw [if_neg hm]

/-- C4.  Spec-modelled delivery retry loop: for every delivery of one
(event, subscription) pair under a retry policy with at least one allowed
attempt, the recorded attempt numbers are consecutive from 1 (each retry
strictly increases the attempt number) and never exceed `max_attempts`;
every re-enqueued retry task for a failed attempt `m - 1 < max_attempts`
carries delay `min(max_delay, initial_delay * multiplier ^ (m - 1))` plus
jitter; at most one DLQItem ever exists for the pair, and if the first
`max_attempts` outcomes are all failures, exactly one DLQItem exists. -/
theorem delivery_retry_backoff_dlq (p : RetryPolicy) (jitter : Nat → Nat)
    (outcomes : List Bool) (hmax : 1 ≤ p.max_attempts) :
    ((deliver p jitter outcomes).attempts.map AttemptRec.number =
      List.range' 1 (deliver p jitter outcomes).attempts.length) ∧
    ((deliver p jitter outcomes).attempts.map AttemptRec.number).Chain' (· < ·) ∧
    (∀ a ∈ (deliver p jitter outcomes).attempts, a.number ≤ p.max_attempts) ∧
    (∀ t ∈ (deliver p jitter outcomes).tasks,
      2 ≤ t.number ∧ t.number ≤ p.max_attempts ∧
        t.delay = retryDelay p (t.number - 1) + jitter (t.number - 1)) ∧
    (deliver p jitter outcomes).dlqCount ≤ 1 ∧
    ((∀ o ∈ outcomes, o = false) → p.max_attempts ≤ outcomes.length →
      (deliver p jitter outcomes).dlqCount = 1) := by
  simp only [deliver]
  refine ⟨deliverFrom_numbers p jitter outcomes 1, ?_,
    deliverFrom_le p jitter outcomes 1 hmax,
    deliverFrom_tasks p jitter outcomes 1 (le_refl 1),
    deliverFrom_dlq_le_one p jitter outcomes 1, ?_⟩
  · rw [deliverFrom_numbers p jitter outcomes 1]
    exact (List.pairwise_lt_range' _ _ _).chain'
  · intro hall hlen
    exact deliverFrom_dlq_all_fail p jitter outcomes 1 hall hmax (by omega)

/-- Witness for C4: policy `max_attempts = 3`, `initial_delay = 100`,
`max_delay = 1000`, `multiplier = 2`, jitter 7, three failures: attempts
1, 2, 3; retries enqueued with delays 207 and 407; exactly one DLQItem. -/
theorem delivery_retry_backoff_dlq_witness :
    (deliver ⟨3, 100, 1000, 2⟩ (fun _ => 7) [false, false, false]).attempts.map
        AttemptRec.number = [1, 2, 3] ∧
    (deliver ⟨3, 100, 1000, 2⟩ (fun _ => 7) [false, false, false]).dlqCount = 1 := by
  have h := delivery_retry_backoff_dlq ⟨3, 100, 1000, 2⟩ (fun _ => 7)
    [false, false, false] (by decide)
  constructor
  · rw [h.1]
    decide
  · exact h.2.2.2.2.2 (by decide) (by decide)
end Delivery

/-! ## Event lifecycle: dispatch, delivery resolution, DLQ, replay
(spec §3, §4.2, §4.3, §4.5, §4.6)

The Dispatcher and the status bookkeeping of the Event Store exist in the
repository only as declarations (the `Event` interface in
`frontend/src/lib/api.ts` and the PRD), so the per-event lifecycle is
modelled from the spec.  An event's per-subscription delivery tasks are
created at dispatch time; `successful_deliveries`/`failed_deliveries` are
the counts of resolved tasks. -/

namespace EventCore

inductive EventStatus where
  | pending
  | processing
  | delivered
  | partially_delivered
  | failed
deriving DecidableEq

/-- Resolution state of one (event, subscription) delivery task. -/
inductive TaskRes where
  | unresolved
  | success
  | failure
deriving DecidableEq

/-- Modelled from the spec: the mutable part of a stored Event — its
status, the per-matched-subscription task states fixed at dispatch time,
the DeliveryAttempt audit log `(task index, outcome)`, and whether the
event is still available to Inbox consumers. -/
structure EvState where
  status : EventStatus
  tasks : List TaskRes
  attempts : List (Nat × Bool)
  inInbox : Bool
deriving DecidableEq

/-- Forward progress of the status lifecycle:
pending (0) → processing (1) → any terminal status (2). -/
def stageRank : EventStatus → Nat
  | EventStatus.pending => 0
  | EventStatus.processing => 1
  | _ => 2

/-- Modelled from the spec: the operations that may touch an Event after
creation — Dispatcher dispatch with the number of matched subscriptions,
a Delivery Worker resolving one task, DLQ manual retry of a failed task
(§4.5), Replay (which submits causation-tagged tasks and does not touch
the original Event's status or counters, §4.6), and Inbox
acknowledgment. -/
inductive EvOp where
  | dispatch (matched : Nat)
  | recordResult (i : Nat) (ok : Bool)
  | dlqRetry (i : Nat)
  | replay
  | ack
deriving DecidableEq

/-- Modelled from the spec (§4.3): once all tasks for an Event resolve,
the status becomes `delivered` (all succeeded), `failed` (all failed) or
`partially_delivered` (mixed); before that the status is unchanged. -/
def finalizeStatus (tasks : List TaskRes) (current : EventStatus) : EventStatus :=
  if tasks.all (fun t => decide (t ≠ TaskRes.unresolved)) then
    if tasks.all (fun t => decide (t = TaskRes.success)) then EventStatus.delivered
    else if tasks.all (fun t => decide (t = TaskRes.failure)) then EventStatus.failed
    else EventStatus.partially_delivered
  else current

/-- Modelled from the spec (§4.2, §4.3, §4.5, §4.6): one operation applied
to an Event's state; guarded operations that do not apply (duplicate task
processing, acknowledged handles, retry of a non-failed pair) are safe
no-ops. -/
def step (s : EvState) : EvOp → EvState
  | EvOp.dispatch matched =>
    if s.status = EventStatus.pending then
      if matched = 0 then { s with status := EventStatus.delivered, tasks := [] }
      else { s with status := EventStatus.processing,
                    tasks := List.replicate matched TaskRes.unresolved }
    else s
  | EvOp.recordResult i ok =>
    if s.status ≠ EventStatus.pending ∧ i < s.tasks.length ∧
        s.tasks.getD i TaskRes.unresolved = TaskRes.unresolved then
      let tasks' := s.tasks.set i (if ok then TaskRes.success else TaskRes.failure)
      { status := finalizeStatus tasks' s.status
        tasks := tasks'
        attempts := s.attempts ++ [(i, ok)]
        inInbox := s.inInbox }
    else s
  | EvOp.dlqRetry i =>
    if s.tasks.getD i TaskRes.unresolved = TaskRes.failure then
      { s with tasks := s.tasks.set i TaskRes.unresolved }
    else s
  | EvOp.replay => s
  | EvOp.ack => { s with inInbox := false }

/-- `successful_deliveries`: resolved-successful task count. -/
def successCount (s : EvState) : Nat := s.tasks.count TaskRes.success

/-- `failed_deliveries`: resolved-failed task count. -/
def failureCount (s : EvState) : Nat := s.tasks.count TaskRes.failure

/-- Apply a sequence of operations. -/
def run (ops : List EvOp) (s : EvState) : EvState := ops.foldl step s

lemma stageRank_finalize (tasks : List TaskRes) (st : EventStatus) :
    stageRank st ≤ stageRank (finalizeStatus tasks st) := by
  rw [finalizeStatus]
  by_cases h1 : tasks.all (fun t => decide (t ≠ TaskRes.unresolved)) = true
  · rw [if_pos h1]
    by_cases h2 : tasks.all (fun t => decide (t = TaskRes.success)) = true
    · rw [if_pos h2]
      cases st <;> simp [stageRank]
    · rw [if_neg h2]
      by_cases h3 : tasks.all (fun t => decide (t = TaskRes.failure)) = true
      · rw [if_pos h3]
        cases st <;> simp [stageRank]
      · rw [if_neg h3]
        cases st <;> simp [stageRank]
  · rw [if_neg h1]

lemma finalize_ne_pending (tasks : List TaskRes) (st : EventStatus)
    (h : st ≠ EventStatus.pending) :
    finalizeStatus tasks st ≠ EventStatus.pending := by
  rw [finalizeStatus]
  by_cases h1 : tasks.all (fun t => decide (t ≠ TaskRes.unresolved)) = true
  · rw [if_pos h1]
    by_cases h2 : tasks.all (fun t => decide (t = TaskRes.success)) = true
    · rw [if_pos h2]
      simp
    · rw [if_neg h2]
      by_cases h3 : tasks.all (fun t => decide (t = TaskRes.failure)) = true
      · rw [if_pos h3]
        simp
      · rw [if_neg h3]
        simp
  · rw [if_neg h1]
    exact h

lemma stageRank_step (s : EvState) (op : EvOp) :
    stageRank s.status ≤ stageRank (step s op).status := by
  cases op with
  | dispatch matched =>
    rw [step]
    by_cases hp : s.status = EventStatus.pending
    · rw [if_pos hp, hp]
      by_cases hm : matched = 0
      · rw [if_pos hm]
        exact Nat.zero_le _
      · rw [if_neg hm]
        exact Nat.zero_le _
    · rw [if_neg hp]
  | recordResult i ok =>
    rw [step]
    by_cases hg : s.status ≠ EventStatus.pending ∧ i < s.tasks.length ∧
        s.tasks.getD i TaskRes.unresolved = TaskRes.unresolved
    · rw [if_pos hg]
      exact stageRank_finalize _ s.status
    · rw [if_neg hg]
  | dlqRetry i =>
    rw [step]
    split <;> exact le_refl _
  | replay => exact le_refl _
  | ack => exact le_refl _

lemma countersLe (l : List TaskRes) :
    l.count TaskRes.success + l.count TaskRes.failure ≤ l.length := by
  induction l with
  | nil => simp
  | cons t rest ih =>
    cases t <;> simp [List.count_cons] <;> omega

lemma nonpending_step (s : EvState) (op : EvOp)
    (h : s.status ≠ EventStatus.pending) :
    (step s op).status ≠ EventStatus.pending ∧
    (step s op).tasks.length = s.tasks.length := by
  cases op with
  | dispatch matched =>
    rw [step, if_neg h]
    exact ⟨h, rfl⟩
  | recordResult i ok =>
    rw [step]
    by_cases hg : s.status ≠ EventStatus.pending ∧ i < s.tasks.length ∧
        s.tasks.getD i TaskRes.unresolved = TaskRes.unresolved
    · rw [if_pos hg]
      exact ⟨finalize_ne_pending _ _ h, List.length_set _ _ _⟩
    · rw [if_neg hg]
      exact ⟨h, rfl⟩
  | dlqRetry i =>
    rw [step]
    split
    · exact ⟨h, List.length_set _ _ _⟩
    · exact ⟨h, rfl⟩
  | replay => exact ⟨h, rfl⟩
  | ack => exact ⟨h, rfl⟩

lemma nonpending_run (ops : List EvOp) :
    ∀ s : EvState, s.status ≠ EventStatus.pending →
      (run ops s).status ≠ EventStatus.pending ∧
      (run ops s).tasks.length = s.tasks.length := by
  induction ops with
  | nil => exact fun s h => ⟨h, rfl⟩
  | cons op rest ih =>
    intro s h
    have h1 := nonpending_step s op h
    have h2 := ih (step s op) h1.1
    exact ⟨h2.1, h2.2.trans h1.2⟩

lemma stageRank_run (ops : List EvOp) :
    ∀ s : EvState, stageRank s.status ≤ stageRank (run ops s).status := by
  induction ops with
  | nil => exact fun s => le_refl _
  | cons op rest ih =>
    intro s
    exact le_trans (stageRank_step s op) (ih (step s op))

/-- C5.  Spec-modelled event lifecycle: along every operation sequence the
Event status only moves forward (its stage rank pending → processing →
terminal never decreases, for single steps and whole runs, over all
operations including dispatch, delivery resolution, DLQ retry, replay and
acknowledgment); `successful_deliveries + failed_deliveries` never
exceeds the number of delivery tasks, and once dispatched (status no
longer pending) that task count stays equal to the number of
subscriptions matched at dispatch time. -/
theorem event_status_forward (s : EvState) (ops : List EvOp) (op : EvOp)
    (matched : Nat) :
    stageRank s.status ≤ stageRank (step s op).status ∧
    stageRank s.status ≤ stageRank (run ops s).status ∧
    successCount (run ops s) + failureCount (run ops s) ≤
      (run ops s).tasks.length ∧
    (s.status ≠ EventStatus.pending →
      (run ops s).tasks.length = s.tasks.length) ∧
    (s.status = EventStatus.pending →
      (run ops (step s (EvOp.dispatch matched))).tasks.length = matched) := by
  refine ⟨stageRank_step s op, stageRank_run ops s,
    countersLe (run ops s).tasks, fun h => (nonpending_run ops s h).2, ?_⟩
  intro hp
  have hstep : (step s (EvOp.dispatch matched)).status ≠ EventStatus.pending ∧
      (step s (EvOp.dispatch matched)).tasks.length = matched := by
    rw [step, if_pos hp]
    by_cases hm : matched = 0
    · rw [if_pos hm, hm]
      exact ⟨by simp, rfl⟩
    · rw [if_neg hm]
      exact ⟨by simp, List.length_replicate _ _⟩
  have h2 := nonpending_run ops (step s (EvOp.dispatch matched)) hstep.1
  exact h2.2.trans hstep.2

/-- Witness for C5 at a concrete state and run. -/
theorem event_status_forward_witness :
    stageRank (EvState.mk EventStatus.processing [TaskRes.unresolved] [] true).status ≤
      stageRank (run [EvOp.recordResult 0 true]
        ⟨EventStatus.processing, [TaskRes.unresolved], [], true⟩).status ∧
    (run [EvOp.recordResult 0 true]
      ⟨EventStatus.processing, [TaskRes.unresolved], [], true⟩).tasks.length =
      (⟨EventStatus.processing, [TaskRes.unresolved], [], true⟩ :
        EvState).tasks.length := by
  have h := event_status_forward
    ⟨EventStatus.processing, [TaskRes.unresolved], [], true⟩
    [EvOp.recordResult 0 true] EvOp.replay 0
  exact ⟨h.2.1, h.2.2.2.1 (by decide)⟩

lemma delivered_empty_run (ops : List EvOp) :
    ∀ s : EvState, s.status = EventStatus.delivered → s.tasks = [] →
      (run ops s).attempts = s.attempts ∧
      (run ops s).status = EventStatus.delivered ∧
      (run ops s).tasks = [] ∧
      ((∀ op ∈ ops, op ≠ EvOp.ack) → (run ops s).inInbox = s.inInbox) := by
  induction ops with
  | nil => exact fun s h1 h2 => ⟨rfl, h1, h2, fun _ => rfl⟩
  | cons op rest ih =>
    intro s h1 h2
    cases op with
    | dispatch matched =>
      have hs : step s (EvOp.dispatch matched) = s := by
        rw [step, if_neg (by rw [h1]; simp)]
      have := ih s h1 h2
      rw [show run (EvOp.dispatch matched :: rest) s = run rest s by
        rw [run, List.foldl_cons, hs]; rfl]
      exact ⟨this.1, this.2.1, this.2.2.1,
        fun hna => this.2.2.2 (fun o ho => hna o (List.mem_cons_of_mem _ ho))⟩
    | recordResult i ok =>
      have hs : step s (EvOp.recordResult i ok) = s := by
        rw [step, if_neg (by rw [h2]; simp)]
      have := ih s h1 h2
      rw [show run (EvOp.recordResult i ok :: rest) s = run rest s by
        rw [run, List.foldl_cons, hs]; rfl]
      exact ⟨this.1, this.2.1, this.2.2.1,
        fun hna => this.2.2.2 (fun o ho => hna o (List.mem_cons_of_mem _ ho))⟩
    | dlqRetry i =>
      have hs : step s (EvOp.dlqRetry i) = s := by
        rw [step, if_neg (by rw [h2]; simp [List.getD])]
      have := ih s h1 h2
      rw [show run (EvOp.dlqRetry i :: rest) s = run rest s by
        rw [run, List.foldl_cons, hs]; rfl]
      exact ⟨this.1, this.2.1, this.2.2.1,
        fun hna => this.2.2.2 (fun o ho => hna o (List.mem_cons_of_mem _ ho))⟩
    | replay =>
      have := ih s h1 h2
      rw [show run (EvOp.replay :: rest) s = run rest s from rfl]
      exact ⟨this.1, this.2.1, this.2.2.1,
        fun hna => this.2.2.2 (fun o ho => hna o (List.mem_cons_of_mem _ ho))⟩
    | ack =>
      have := ih { s with inInbox := false } h1 h2
      rw [show run (EvOp.ack :: rest) s =
        run rest { s with inInbox := false } from rfl]
      refine ⟨this.1, this.2.1, this.2.2.1, ?_⟩
      intro hna
      exact absurd rfl (hna EvOp.ack (List.mem_cons_self _ _))

/-- C6.  Spec-modelled zero-match dispatch: dispatching an Event with zero
matching active subscriptions makes its status `delivered` immediately,
records no DeliveryAttempt then or ever afterwards (along any further
operation sequence), and leaves the event available via the Inbox (its
inbox availability is unchanged by the dispatch and by any run that does
not acknowledge it). -/
theorem zero_match_dispatch_delivered (s : EvState) (ops : List EvOp)
    (hp : s.status = EventStatus.pending) (hatt : s.attempts = []) :
    (step s (EvOp.dispatch 0)).status = EventStatus.delivered ∧
    (step s (EvOp.dispatch 0)).attempts = [] ∧
    (step s (EvOp.dispatch 0)).inInbox = s.inInbox ∧
    (run ops (step s (EvOp.dispatch 0))).attempts = [] ∧
    ((∀ op ∈ ops, op ≠ EvOp.ack) →
      (run ops (step s (EvOp.dispatch 0))).inInbox = s.inInbox) := by
  have hs : step s (EvOp.dispatch 0) =
      { s with status := EventStatus.delivered, tasks := [] } := by
    rw [step, if_pos hp, if_pos rfl]
  rw [hs]
  have h := delivered_empty_run ops
    { s with status := EventStatus.delivered, tasks := [] } rfl rfl
  exact ⟨rfl, hatt, rfl, by rw [h.1]; exact hatt, fun hna => h.2.2.2 hna⟩

/-- Witness for C6 at a concrete pending event and ack-free run. -/
theorem zero_match_dispatch_delivered_witness :
    (step ⟨EventStatus.pending, [], [], true⟩ (EvOp.dispatch 0)).status =
      EventStatus.delivered ∧
    (run [EvOp.replay, EvOp.dispatch 3, EvOp.recordResult 0 true]
      (step ⟨EventStatus.pending, [], [], true⟩ (EvOp.dispatch 0))).attempts = [] ∧
    (run [EvOp.replay, EvOp.dispatch 3, EvOp.recordResult 0 true]
      (step ⟨EventStatus.pending, [], [], true⟩ (EvOp.dispatch 0))).inInbox = true := by
  have h := zero_match_dispatch_delivered ⟨EventStatus.pending, [], [], true⟩
    [EvOp.replay, EvOp.dispatch 3, EvOp.recordResult 0 true] rfl rfl
  exact ⟨h.1, h.2.2.2.1, h.2.2.2.2 (by decide)⟩

end EventCore

/-! ## Inbox acknowledgment (spec §4.4)

The Inbox backend exists in the repository only as declarations (the
`api.inbox.acknowledge` client in `frontend/src/lib/api.ts` and the PRD,
which marks acknowledgment as idempotent), so it is modelled from the
spec. -/

namespace Inbox

/-- Modelled from the spec: an inbox item with its opaque receipt handle,
consumption flag, and the end of its visibility window. -/
structure InboxItem where
  eventId : String
  handle : String
  consumed : Bool
  visibleUntil : Nat
deriving DecidableEq

/-- Modelled from the spec: the per-account inbox. -/
structure InboxState where
  items : List InboxItem
deriving DecidableEq

/-- Acknowledgment outcome: always success — acknowledging an unknown,
already-acknowledged or expired handle is a no-op, not an error. -/
inductive AckResult where
  | ok
deriving DecidableEq

/-- Modelled from the spec (§4.4): one item under acknowledgment of
handle `h` at time `now`: it is marked consumed exactly when the handle
matches, the item is not yet consumed, and its visibility window is still
open; otherwise it is untouched. -/
def ackItem (now : Nat) (h : String) (it : InboxItem) : InboxItem :=
  if it.handle = h ∧ ¬ it.consumed ∧ now ≤ it.visibleUntil then
    { it with consumed := true }
  else it

/-- Modelled from the spec (§4.4): `acknowledge` marks the matching,
unconsumed, in-window items as consumed and always succeeds. -/
def acknowledge (s : InboxState) (now : Nat) (h : String) :
    AckResult × InboxState :=
  (AckResult.ok, ⟨s.items.map (ackItem now h)⟩)

lemma ackItem_idem (now : Nat) (h : String) (it : InboxItem) :
    ackItem now h (ackItem now h it) = ackItem now h it := by
  by_cases hc : it.handle = h ∧ ¬ it.consumed ∧ now ≤ it.visibleUntil
  · have h1 : ackItem now h it = { it with consumed := true } := by
      rw [ackItem, if_pos hc]
    rw [h1, ackItem, if_neg (by simp)]
  · have h1 : ackItem now h it = it := by
      rw [ackItem, if_neg hc]
    rw [h1, h1]

/-- C7.  Spec-modelled idempotent acknowledgment: `acknowledge` always
returns success; acknowledging a handle a second time is the identity on
the state reached by the first acknowledgment
(`ack (ack s h) h = ack s h`); and acknowledging a handle whose items are
all already consumed or expired (in particular an unknown handle) returns
success and changes no state. -/
theorem inbox_ack_idempotent (s : InboxState) (now : Nat) (h : String) :
    (acknowledge s now h).1 = AckResult.ok ∧
    acknowledge (acknowledge s now h).2 now h = acknowledge s now h ∧
    ((∀ it ∈ s.items, it.handle = h → (it.consumed ∨ it.visibleUntil < now)) →
      acknowledge s now h = (AckResult.ok, s)) := by
  refine ⟨rfl, ?_, ?_⟩
  · show (AckResult.ok, (⟨(s.items.map (ackItem now h)).map (ackItem now h)⟩ :
      InboxState)) = (AckResult.ok, ⟨s.items.map (ackItem now h)⟩)
    rw [List.map_map]
    have hmm : List.map (ackItem now h ∘ ackItem now h) s.items =
        List.map (ackItem now h) s.items :=
      List.map_congr_left (fun it _ => ackItem_idem now h it)
    rw [hmm]
  · intro hinv
    show (AckResult.ok, (⟨s.items.map (ackItem now h)⟩ : InboxState)) =
      (AckResult.ok, s)
    have hid : ∀ it ∈ s.items, ackItem now h it = it := by
      intro it hit
      rw [ackItem, if_neg ?_]
      intro hcon
      rcases hinv it hit hcon.1 with hcons | hexp
      · exact hcon.2.1 hcons
      · omega
    rw [List.map_congr_left hid, List.map_id']

/-- Witness for C7: double acknowledgment of a live handle and
acknowledgment of an absent handle, at a concrete inbox. -/
theorem inbox_ack_idempotent_witness :
    acknowledge (acknowledge ⟨[⟨"e1", "h1", false, 100⟩]⟩ 10 "h1").2 10 "h1" =
      acknowledge ⟨[⟨"e1", "h1", false, 100⟩]⟩ 10 "h1" ∧
    acknowledge ⟨[⟨"e1", "h1", false, 100⟩]⟩ 10 "h2" =
      (AckResult.ok, ⟨[⟨"e1", "h1", false, 100⟩]⟩) := by
  constructor
  · exact (inbox_ack_idempotent ⟨[⟨"e1", "h1", false, 100⟩]⟩ 10 "h1").2.1
  · exact (inbox_ack_idempotent ⟨[⟨"e1", "h1", false, 100⟩]⟩ 10 "h2").2.2
      (by decide)

end Inbox
